import Mathlib

/-
Verification of the Privarion hook registry
(src/Sources/PrivarionHook/privarion_hook.c and its header
src/Sources/PrivarionHook/include/privarion_hook.h).

The C library is a process-local function-interception registry: a linked
list of hook entries guarded by one mutex, plus a spoof-configuration
struct read by canned replacement handlers.  The embedding below models
the registry state (the globals `g_hook_system_initialized`,
`g_hook_list_head`, `g_next_hook_id`) as an explicit state record and each
public operation as a pure function on that state.  Machine pointers are
modelled as natural numbers with 0 standing for NULL; `dlsym` is an
environment parameter; `malloc` success is an explicit boolean input.
Character buffers are lists of characters and the fixed 256-byte name
fields are modelled by truncation to 255 characters, exactly as the
`strncpy(dst, src, sizeof(dst) - 1); dst[sizeof(dst) - 1] = 0` idiom in
the source behaves.
-/

set_option maxRecDepth 4000

namespace Privarion

/-- Result codes, `PHResult` in privarion_hook.h. -/
inductive PHResult where
  | success
  | invalidParam
  | functionNotFound
  | alreadyHooked
  | notHooked
  | memoryError
  | permissionDenied
  | unsupportedPlatform
  deriving DecidableEq, Repr

/-- One registry entry, `PHookEntry` in privarion_hook.h (the `next`
pointer becomes list structure).  Function pointers are addresses
(`Nat`, 0 = NULL). -/
structure PHookEntry where
  function_name : String
  original_function : Nat
  replacement_function : Nat
  is_active : Bool
  deriving DecidableEq, Repr

/-- Caller-facing handle, `PHookHandle` in privarion_hook.h. -/
structure PHookHandle where
  id : Nat
  function_name : String
  is_valid : Bool
  deriving DecidableEq, Repr

/-- The registry's global state: `g_hook_system_initialized`,
`g_hook_list_head` (as a list, head first) and `g_next_hook_id`
(a `uint32_t`, modelled as a natural number reduced mod 2^32 at each
increment). -/
structure PHState where
  initialized : Bool
  hooks : List PHookEntry
  nextId : Nat
  deriving DecidableEq, Repr

/-- The process environment the registry runs in: whether
`ph_is_platform_supported` holds, and the `dlsym(RTLD_DEFAULT, name)`
oracle mapping a symbol name to its address (0 = resolution failure). -/
structure PHEnv where
  platformSupported : Bool
  resolve : String → Nat

/-- Truncation performed by the source's
`strncpy(dst, name, sizeof(dst) - 1); dst[sizeof(dst) - 1] = 0` idiom on
the 256-byte `function_name` fields: only the first 255 characters are
stored. -/
def trunc255 (s : String) : String :=
  ⟨s.data.take 255⟩

/-- Linear search of the hook list, `ph_find_hook_by_name` (lines
445-454): first entry whose stored name compares equal (`strcmp`) to the
query; `is_active` is not consulted. -/
def ph_find_hook_by_name (function_name : String) : List PHookEntry → Option PHookEntry
  | [] => none
  | e :: rest =>
    if e.function_name = function_name then some e
    else ph_find_hook_by_name function_name rest

/-- Removal of the first entry whose stored name matches, mirroring the
unlink loop of `ph_remove_hook` (lines 269-289); `none` when no entry
matches. -/
def removeFirstHook (function_name : String) : List PHookEntry → Option (List PHookEntry)
  | [] => none
  | e :: rest =>
    if e.function_name = function_name then some rest
    else (removeFirstHook function_name rest).map (fun l => e :: l)

/-- Model of `ph_initialize` (lines 144-168): no-op success when already
initialized; `PH_ERROR_UNSUPPORTED_PLATFORM` when the platform check
fails; otherwise resets the hook list, resets `g_next_hook_id` to 1 and
marks the system initialized. -/
def ph_initialize (env : PHEnv) (s : PHState) : PHResult × PHState :=
  if s.initialized then (.success, s)
  else if env.platformSupported then (.success, ⟨true, [], 1⟩)
  else (.unsupportedPlatform, s)

/-- Model of `ph_cleanup` (lines 170-193): no-op when not initialized;
otherwise frees every entry and clears the initialized flag.  Note that
`g_next_hook_id` is NOT reset by cleanup. -/
def ph_cleanup (s : PHState) : PHState :=
  if s.initialized then ⟨false, [], s.nextId⟩ else s

/-- Model of `ph_install_hook` (lines 195-252).  `function_name = none`
models a NULL name pointer, `replacement_function = 0` a NULL replacement
pointer, `handleGiven = false` a NULL out-handle pointer, and `allocOk`
whether the `malloc` of the new entry succeeds.  The guard order follows
the source exactly: NULL arguments, then the initialized flag, then the
duplicate-name check, then `dlsym`, then `malloc`; on success the new
entry is pushed at the head of the list and the out-handle receives the
current `g_next_hook_id`, which is then incremented (`uint32_t`
arithmetic). -/
def ph_install_hook (env : PHEnv) (function_name : Option String)
    (replacement_function : Nat) (handleGiven : Bool) (allocOk : Bool)
    (s : PHState) : PHResult × PHState × Option PHookHandle :=
  match function_name with
  | none => (.invalidParam, s, none)
  | some name =>
    if replacement_function = 0 then (.invalidParam, s, none)
    else if handleGiven = false then (.invalidParam, s, none)
    else if s.initialized = false then (.invalidParam, s, none)
    else if (ph_find_hook_by_name name s.hooks).isSome then (.alreadyHooked, s, none)
    else if env.resolve name = 0 then (.functionNotFound, s, none)
    else if allocOk = false then (.memoryError, s, none)
    else
      (.success,
       ⟨true, ⟨trunc255 name, env.resolve name, replacement_function, true⟩ :: s.hooks,
        (s.nextId + 1) % 2 ^ 32⟩,
       some ⟨s.nextId, trunc255 name, true⟩)

/-- Model of `ph_remove_hook` (lines 254-293).  The handle is passed by
const pointer in the source, so the model neither receives nor returns a
modified handle: the caller's handle is untouched by removal.  Failure
paths (`is_valid` false, system not initialized, no matching entry) leave
the state unchanged; success unlinks the first entry whose stored name
matches `handle->function_name` (the handle's `id` is never consulted). -/
def ph_remove_hook (handle : PHookHandle) (s : PHState) : PHResult × PHState :=
  if handle.is_valid = false then (.invalidParam, s)
  else if s.initialized = false then (.invalidParam, s)
  else
    match removeFirstHook handle.function_name s.hooks with
    | some hooks1 => (.success, ⟨s.initialized, hooks1, s.nextId⟩)
    | none => (.notHooked, s)

/-- Model of `ph_is_hooked` (lines 309-319): false for a NULL name,
otherwise whether the name search succeeds. -/
def ph_is_hooked (function_name : Option String) (s : PHState) : Bool :=
  match function_name with
  | none => false
  | some name => (ph_find_hook_by_name name s.hooks).isSome

/-- Model of `ph_get_active_hook_count` (lines 385-399): the number of
entries whose `is_active` flag is set. -/
def ph_get_active_hook_count (s : PHState) : Nat :=
  (s.hooks.filter (fun e => e.is_active)).length

/-- Byte-wise write of a chunk of characters into a buffer starting at
`off`; `List.set` past the end of the buffer is a no-op, so positions the
caller's buffer does not have simply stay absent.  This is the primitive
in terms of which `strcpy`/`strncpy` on caller buffers are modelled. -/
def writeChunk : List Char → Nat → List Char → List Char
  | buf, _, [] => buf
  | buf, off, c :: cs => writeChunk (buf.set off c) (off + 1) cs

/-- The byte sequence `strncpy(dst, src, n)` deposits: the first `n`
characters of `src`, padded with NUL bytes up to exactly `n` when `src`
is shorter. -/
def strncpyChunk (src : String) (n : Nat) : List Char :=
  src.data.take n ++ List.replicate (n - src.data.length) (Char.ofNat 0)

/-- Model of the canned hostname handler `hooked_gethostname` (lines
39-49): reads the configured hostname (passed here as `cfgHostname`,
standing for `g_config_data.hostname`), fails with -1 (`ENAMETOOLONG`)
when `len <= strlen(hostname)`, and otherwise performs
`strncpy(name, hostname, len - 1); name[len - 1] = 0` and returns 0. -/
def hooked_gethostname (cfgHostname : String) (buf : List Char) (len : Nat) :
    Int × List Char :=
  if len ≤ cfgHostname.length then (-1, buf)
  else
    (0, (writeChunk buf 0 (strncpyChunk cfgHostname (len - 1))).set (len - 1) (Char.ofNat 0))

/-- The byte sequence `strcpy(buffer + off, s)` deposits: the characters
of `s` followed by the terminating NUL. -/
def strcpyAt (buf : List Char) (off : Nat) (s : String) : List Char :=
  writeChunk buf off (s.data ++ [Char.ofNat 0])

/-- The copy loop of `ph_get_active_hooks` (lines 412-424): while entries
remain and `offset < buffer_size - 1`, an active entry's name is copied
(with terminator) when `offset + name_len + 1 < buffer_size`, advancing
`offset` and `count`; otherwise the loop breaks.  Inactive entries are
skipped. -/
def ph_get_active_hooks_loop :
    List PHookEntry → List Char → Nat → Nat → Nat → Nat × List Char
  | [], buf, _, _, count => (count, buf)
  | e :: rest, buf, bufferSize, offset, count =>
    if offset < bufferSize - 1 then
      if e.is_active then
        if offset + e.function_name.length + 1 < bufferSize then
          ph_get_active_hooks_loop rest (strcpyAt buf offset e.function_name) bufferSize
            (offset + e.function_name.length + 1) (count + 1)
        else (count, buf)
      else ph_get_active_hooks_loop rest buf bufferSize offset count
    else (count, buf)

/-- Model of `ph_get_active_hooks` (lines 401-428): returns 0 immediately
for a zero-capacity buffer (the NULL-buffer early return has no
counterpart for list-modelled buffers), otherwise runs the copy loop from
offset 0 and count 0. -/
def ph_get_active_hooks (buf : List Char) (bufferSize : Nat) (s : PHState) :
    Nat × List Char :=
  if bufferSize = 0 then (0, buf)
  else ph_get_active_hooks_loop s.hooks buf bufferSize 0 0

/-- Specification-level companion of the copy loop: the list of names the
loop writes, computed with the same guards but without touching any
buffer. -/
def writableNames : List PHookEntry → Nat → Nat → List String
  | [], _, _ => []
  | e :: rest, bufferSize, offset =>
    if offset < bufferSize - 1 then
      if e.is_active then
        if offset + e.function_name.length + 1 < bufferSize then
          e.function_name :: writableNames rest bufferSize (offset + e.function_name.length + 1)
        else []
      else writableNames rest bufferSize offset
    else []

/-- Consecutive serialization of a list of names, each followed by its
NUL terminator. -/
def serializeNames : List String → List Char
  | [] => []
  | n :: ns => (n.data ++ [Char.ofNat 0]) ++ serializeNames ns

/-- Primitive events a configuration-install wrapper performs on the
shared globals, in program order: acquiring/releasing `g_hook_mutex` and
storing into a field of `g_config_data`. -/
inductive PHEvent where
  | lock
  | unlock
  | configWrite (field : String)
  deriving DecidableEq, Repr

/-- Events performed by `ph_install_hook` (lines 195-252): it brackets
its whole critical section in lock/unlock and never stores into
`g_config_data`. -/
def ph_install_hook_events : List PHEvent :=
  [PHEvent.lock, PHEvent.unlock]

/-- Events of `ph_install_getuid_hook` (lines 75-88): lock, store
`user_id`, unlock, then delegate to `ph_install_hook`. -/
def ph_install_getuid_hook_events : List PHEvent :=
  [PHEvent.lock, PHEvent.configWrite "user_id", PHEvent.unlock] ++ ph_install_hook_events

/-- Events of `ph_install_getgid_hook` (lines 90-103): lock, store
`group_id`, unlock, then delegate to `ph_install_hook`. -/
def ph_install_getgid_hook_events : List PHEvent :=
  [PHEvent.lock, PHEvent.configWrite "group_id", PHEvent.unlock] ++ ph_install_hook_events

/-- Events of `ph_install_gethostname_hook` (lines 105-116): it stores
`hostname` with no lock/unlock around the store, then delegates to
`ph_install_hook`. -/
def ph_install_gethostname_hook_events : List PHEvent :=
  [PHEvent.configWrite "hostname"] ++ ph_install_hook_events

/-- Events of `ph_install_uname_hook` (lines 118-140): it stores the five
system-info fields with no lock/unlock around the stores, then delegates
to `ph_install_hook`. -/
def ph_install_uname_hook_events : List PHEvent :=
  [PHEvent.configWrite "system_name", PHEvent.configWrite "machine",
   PHEvent.configWrite "release", PHEvent.configWrite "version",
   PHEvent.configWrite "hostname"] ++ ph_install_hook_events

/-- Helper for `configWritesLocked`, threading the current lock-held
state through the event list. -/
def configWritesLockedFrom : Bool → List PHEvent → Bool
  | _, [] => true
  | _, PHEvent.lock :: rest => configWritesLockedFrom true rest
  | _, PHEvent.unlock :: rest => configWritesLockedFrom false rest
  | held, PHEvent.configWrite _ :: rest => held && configWritesLockedFrom held rest

/-- Whether every store into `g_config_data` in the event list happens
while `g_hook_mutex` is held (the lock is initially free). -/
def configWritesLocked (evs : List PHEvent) : Bool :=
  configWritesLockedFrom false evs

/-- The 255-character truncation is the identity on names that fit the
256-byte field. -/
theorem trunc255_eq_self (s : String) (h : s.length ≤ 255) : trunc255 s = s := by
  cases s with
  | mk data => exact congrArg String.mk (List.take_of_length_le h)

/-- The unlink loop of `ph_remove_hook` finds no entry exactly when
`ph_find_hook_by_name` finds none: both walk the list comparing the same
stored names. -/
theorem removeFirstHook_eq_none_iff (n : String) (l : List PHookEntry) :
    removeFirstHook n l = none ↔ ph_find_hook_by_name n l = none := by
  induction l with
  | nil => simp [removeFirstHook, ph_find_hook_by_name]
  | cons e rest ih =>
    simp only [removeFirstHook, ph_find_hook_by_name]
    split
    · simp
    · simpa using ih

/-- Searching a longer list still succeeds: pushing an entry at the head
cannot make an existing name disappear. -/
theorem ph_find_hook_by_name_isSome_cons (n : String) (e : PHookEntry)
    (l : List PHookEntry) (h : (ph_find_hook_by_name n l).isSome = true) :
    (ph_find_hook_by_name n (e :: l)).isSome = true := by
  simp only [ph_find_hook_by_name]
  split
  · rfl
  · exact h

/-- Unlinking the first entry of a different name preserves the presence
of an entry with name `n`. -/
theorem ph_find_hook_by_name_isSome_of_removeFirst (m n : String) (hne : m ≠ n) :
    ∀ (l l1 : List PHookEntry), removeFirstHook m l = some l1 →
      (ph_find_hook_by_name n l).isSome = true →
      (ph_find_hook_by_name n l1).isSome = true := by
  intro l
  induction l with
  | nil => intro l1 hrm; simp [removeFirstHook] at hrm
  | cons e rest ih =>
    intro l1 hrm hfind
    by_cases he : e.function_name = m
    · simp only [removeFirstHook, if_pos he, Option.some.injEq] at hrm
      subst hrm
      have hen : e.function_name ≠ n := by
        rw [he]; exact hne
      simpa [ph_find_hook_by_name, hen] using hfind
    · simp only [removeFirstHook, if_neg he, Option.map_eq_some'] at hrm
      obtain ⟨l2, hl2, rfl⟩ := hrm
      by_cases hen : e.function_name = n
      · simp [ph_find_hook_by_name, hen]
      · simp only [ph_find_hook_by_name, if_neg hen] at hfind ⊢
        exact ih l2 hl2 hfind

/-- Exhaustive description of `ph_remove_hook`: either a guard failed
(state untouched), or no entry matched (state untouched), or the first
matching entry was unlinked with the id counter and initialized flag
preserved. -/
theorem ph_remove_hook_cases (h : PHookHandle) (s : PHState) :
    ((h.is_valid = false ∨ s.initialized = false) ∧
       ph_remove_hook h s = (PHResult.invalidParam, s)) ∨
    (h.is_valid = true ∧ s.initialized = true ∧
       removeFirstHook h.function_name s.hooks = none ∧
       ph_remove_hook h s = (PHResult.notHooked, s)) ∨
    (∃ l1, h.is_valid = true ∧ s.initialized = true ∧
       removeFirstHook h.function_name s.hooks = some l1 ∧
       ph_remove_hook h s = (PHResult.success, ⟨s.initialized, l1, s.nextId⟩)) := by
  unfold ph_remove_hook
  split_ifs with h1 h2
  · exact Or.inl ⟨Or.inl h1, rfl⟩
  · exact Or.inl ⟨Or.inr h2, rfl⟩
  · cases hm : removeFirstHook h.function_name s.hooks with
    | none =>
      exact Or.inr (Or.inl ⟨by simpa using h1, by simpa using h2, rfl, rfl⟩)
    | some l1 =>
      exact Or.inr (Or.inr ⟨l1, by simpa using h1, by simpa using h2, rfl, rfl⟩)

/-- Inversion of a successful `ph_remove_hook`: the handle was valid, the
system was initialized, and the first entry with the handle's name was
unlinked while the id counter and initialized flag survived. -/
theorem ph_remove_hook_success_inv (h : PHookHandle) (s s1 : PHState)
    (hr : ph_remove_hook h s = (PHResult.success, s1)) :
    h.is_valid = true ∧ s.initialized = true ∧
      removeFirstHook h.function_name s.hooks = some s1.hooks ∧
      s1.initialized = true ∧ s1.nextId = s.nextId := by
  rcases ph_remove_hook_cases h s with ⟨-, he⟩ | ⟨-, -, -, he⟩ | ⟨l1, hv, hi, hm, he⟩
  · rw [he] at hr; simp at hr
  · rw [he] at hr; simp at hr
  · rw [he] at hr
    simp only [Prod.mk.injEq, true_and] at hr
    subst hr
    exact ⟨hv, hi, hm, hi, rfl⟩

/-- A failing `ph_remove_hook` leaves the registry state untouched. -/
theorem ph_remove_hook_ne_success (h : PHookHandle) (s : PHState)
    (hr : (ph_remove_hook h s).1 ≠ PHResult.success) :
    (ph_remove_hook h s).2 = s := by
  rcases ph_remove_hook_cases h s with ⟨-, he⟩ | ⟨-, -, -, he⟩ | ⟨l1, -, -, -, he⟩
  · rw [he]
  · rw [he]
  · rw [he] at hr; simp at hr

/-- The id counter is never changed by `ph_remove_hook`, on any path. -/
theorem ph_remove_hook_nextId (h : PHookHandle) (s : PHState) :
    ((ph_remove_hook h s).2).nextId = s.nextId := by
  rcases ph_remove_hook_cases h s with ⟨-, he⟩ | ⟨-, -, -, he⟩ | ⟨l1, -, -, -, he⟩ <;>
    rw [he]

/-- Exhaustive description of `ph_install_hook` on a non-NULL name:
either some guard failed, the result is an error and the state and
out-handle are untouched, or every guard passed and the call pushed the
new entry and bumped the id counter. -/
theorem ph_install_hook_cases (env : PHEnv) (name : String) (repl : Nat)
    (hg alloc : Bool) (s : PHState) :
    (∃ r, r ≠ PHResult.success ∧
       ph_install_hook env (some name) repl hg alloc s = (r, s, none)) ∨
    (repl ≠ 0 ∧ hg = true ∧ s.initialized = true ∧
       ph_find_hook_by_name name s.hooks = none ∧ env.resolve name ≠ 0 ∧ alloc = true ∧
       ph_install_hook env (some name) repl hg alloc s
         = (PHResult.success,
            ⟨true, ⟨trunc255 name, env.resolve name, repl, true⟩ :: s.hooks,
             (s.nextId + 1) % 2 ^ 32⟩,
            some ⟨s.nextId, trunc255 name, true⟩)) := by
  simp only [ph_install_hook]
  split_ifs with h1 h2 h3 h4 h5 h6
  · exact Or.inl ⟨PHResult.invalidParam, by simp, rfl⟩
  · exact Or.inl ⟨PHResult.invalidParam, by simp, rfl⟩
  · exact Or.inl ⟨PHResult.invalidParam, by simp, rfl⟩
  · exact Or.inl ⟨PHResult.alreadyHooked, by simp, rfl⟩
  · exact Or.inl ⟨PHResult.functionNotFound, by simp, rfl⟩
  · exact Or.inl ⟨PHResult.memoryError, by simp, rfl⟩
  · refine Or.inr ⟨h1, by simpa using h2, by simpa using h3, ?_, h5, by simpa using h6, rfl⟩
    cases hopt : ph_find_hook_by_name name s.hooks with
    | none => rfl
    | some e => rw [hopt] at h4; simp at h4


/-- Inversion of a successful `ph_install_hook`: every guard passed, the
new entry sits at the head of the list, and the out-handle carries the
old counter value, with the counter bumped by one (32-bit). -/
theorem ph_install_hook_success_inv (env : PHEnv) (name : String) (repl : Nat)
    (hg alloc : Bool) (s s1 : PHState) (oh : Option PHookHandle)
    (h : ph_install_hook env (some name) repl hg alloc s = (PHResult.success, s1, oh)) :
    s.initialized = true ∧ ph_find_hook_by_name name s.hooks = none ∧
      env.resolve name ≠ 0 ∧
      s1 = ⟨true, ⟨trunc255 name, env.resolve name, repl, true⟩ :: s.hooks,
            (s.nextId + 1) % 2 ^ 32⟩ ∧
      oh = some ⟨s.nextId, trunc255 name, true⟩ := by
  rcases ph_install_hook_cases env name repl hg alloc s with ⟨r, hr, he⟩ |
    ⟨-, -, hi, hf, hres, -, he⟩
  · rw [he] at h
    exact absurd (congrArg (fun p => p.1) h) (by simpa using hr)
  · rw [he] at h
    simp only [Prod.mk.injEq, true_and] at h
    obtain ⟨rfl, rfl⟩ := h
    exact ⟨hi, hf, hres, rfl, rfl⟩

/-- A failing `ph_install_hook` leaves the registry state untouched and
writes no handle. -/
theorem ph_install_hook_ne_success (env : PHEnv) (fn : Option String) (repl : Nat)
    (hg alloc : Bool) (s : PHState)
    (h : (ph_install_hook env fn repl hg alloc s).1 ≠ PHResult.success) :
    (ph_install_hook env fn repl hg alloc s).2.1 = s ∧
      (ph_install_hook env fn repl hg alloc s).2.2 = none := by
  cases fn with
  | none => exact ⟨rfl, rfl⟩
  | some name =>
    rcases ph_install_hook_cases env name repl hg alloc s with ⟨r, -, he⟩ |
      ⟨-, -, -, -, -, -, he⟩
    · rw [he]
      exact ⟨rfl, rfl⟩
    · rw [he] at h
      simp at h

/-- Writing a chunk never changes the buffer's length. -/
theorem writeChunk_length (chunk : List Char) :
    ∀ (buf : List Char) (off : Nat), (writeChunk buf off chunk).length = buf.length := by
  induction chunk with
  | nil => intro buf off; rfl
  | cons c cs ih =>
    intro buf off
    simp [writeChunk, ih]

/-- Positions strictly before the write offset are untouched. -/
theorem writeChunk_get?_of_lt (chunk : List Char) :
    ∀ (buf : List Char) (off i : Nat), i < off →
      (writeChunk buf off chunk).get? i = buf.get? i := by
  induction chunk with
  | nil => intro buf off i _; rfl
  | cons c cs ih =>
    intro buf off i hi
    rw [writeChunk, ih (buf.set off c) (off + 1) i (by omega)]
    exact List.get?_set_ne c buf (by omega)

/-- Positions at or past the end of the chunk are untouched. -/
theorem writeChunk_get?_of_ge (chunk : List Char) :
    ∀ (buf : List Char) (off i : Nat), off + chunk.length ≤ i →
      (writeChunk buf off chunk).get? i = buf.get? i := by
  induction chunk with
  | nil => intro buf off i _; rfl
  | cons c cs ih =>
    intro buf off i hi
    simp only [List.length_cons] at hi
    rw [writeChunk, ih (buf.set off c) (off + 1) i (by omega)]
    exact List.get?_set_ne c buf (by omega)

/-- Inside the written region (and inside the buffer), reading gives the
chunk's characters. -/
theorem writeChunk_get?_inside (chunk : List Char) :
    ∀ (buf : List Char) (off i : Nat), i < chunk.length → off + i < buf.length →
      (writeChunk buf off chunk).get? (off + i) = chunk.get? i := by
  induction chunk with
  | nil => intro buf off i hi _; simp at hi
  | cons c cs ih =>
    intro buf off i hi hbuf
    cases i with
    | zero =>
      rw [writeChunk]
      rw [writeChunk_get?_of_lt cs (buf.set off c) (off + 1) (off + 0) (by omega)]
      simpa using List.get?_set_eq_of_lt c (l := buf) (by omega)
    | succ j =>
      rw [writeChunk]
      have harr : off + (j + 1) = (off + 1) + j := by omega
      have hj : j < cs.length := by simpa using hi
      have hbuf2 : (off + 1) + j < (buf.set off c).length := by
        rw [List.length_set]
        omega
      rw [harr, ih (buf.set off c) (off + 1) j hj hbuf2]
      rfl

/-- Writing a concatenation is writing the parts one after the other. -/
theorem writeChunk_append (a b : List Char) :
    ∀ (buf : List Char) (off : Nat),
      writeChunk buf off (a ++ b) = writeChunk (writeChunk buf off a) (off + a.length) b := by
  induction a with
  | nil => intro buf off; simp [writeChunk]
  | cons c cs ih =>
    intro buf off
    simp only [List.cons_append, writeChunk, List.append_eq, List.length_cons]
    rw [ih (buf.set off c) (off + 1)]
    have harr : off + 1 + cs.length = off + (cs.length + 1) := by omega
    rw [harr]

/-- The copy loop of `ph_get_active_hooks` computes exactly the names
selected by `writableNames`, written consecutively from the starting
offset, and returns the starting count plus the number of names
written. -/
theorem ph_get_active_hooks_loop_spec (entries : List PHookEntry) :
    ∀ (buf : List Char) (bufferSize offset count : Nat),
      ph_get_active_hooks_loop entries buf bufferSize offset count
        = (count + (writableNames entries bufferSize offset).length,
           writeChunk buf offset (serializeNames (writableNames entries bufferSize offset))) := by
  induction entries with
  | nil => intro buf bufferSize offset count; simp [ph_get_active_hooks_loop, writableNames,
      serializeNames, writeChunk]
  | cons e rest ih =>
    intro buf bufferSize offset count
    simp only [ph_get_active_hooks_loop, writableNames]
    split_ifs with h1 h2 h3
    · rw [ih]
      simp only [serializeNames, List.length_cons, strcpyAt]
      conv_rhs => rw [writeChunk_append]
      have hlen : (e.function_name.data ++ [Char.ofNat 0]).length
          = e.function_name.length + 1 := by
        simp [String.length_data]
      rw [hlen]
      have hcount : count + 1 + (writableNames rest bufferSize
          (offset + e.function_name.length + 1)).length
          = count + ((writableNames rest bufferSize
              (offset + e.function_name.length + 1)).length + 1) := by omega
      rw [hcount]
      have hoff : offset + (e.function_name.length + 1)
          = offset + e.function_name.length + 1 := by omega
      rw [hoff]
    · simp [serializeNames, writeChunk]
    · exact ih buf bufferSize offset count
    · simp [serializeNames, writeChunk]

/-- The serialized output of the copy loop always fits strictly below
`bufferSize`: when at least one name is written from offset `offset`,
the final offset `offset + length` stays below `bufferSize`. -/
theorem serializeNames_writableNames_lt (entries : List PHookEntry) :
    ∀ (bufferSize offset : Nat),
      writableNames entries bufferSize offset = [] ∨
        offset + (serializeNames (writableNames entries bufferSize offset)).length
          < bufferSize := by
  induction entries with
  | nil => intro bufferSize offset; exact Or.inl rfl
  | cons e rest ih =>
    intro bufferSize offset
    simp only [writableNames]
    split_ifs with h1 h2 h3
    · refine Or.inr ?_
      have hdl : e.function_name.data.length = e.function_name.length :=
        String.length_data e.function_name
      rcases ih bufferSize (offset + e.function_name.length + 1) with hnil | hlt
      · rw [hnil]
        simp only [serializeNames, List.length_append, List.length_nil, List.length_cons]
        omega
      · simp only [serializeNames, List.length_append, List.length_cons,
          List.length_nil] at hlt ⊢
        omega
    · exact Or.inl rfl
    · exact ih bufferSize offset
    · exact Or.inl rfl

/-- Shared computation: with non-NULL arguments, an initialized system,
no entry for the name, and failing symbol resolution, `ph_install_hook`
returns `PH_ERROR_FUNCTION_NOT_FOUND` with the state untouched and no
handle written. -/
theorem ph_install_hook_function_not_found (env : PHEnv) (name : String) (repl : Nat)
    (alloc : Bool) (s : PHState) (hrepl : repl ≠ 0) (hinit : s.initialized = true)
    (hfind : ph_find_hook_by_name name s.hooks = none) (hres : env.resolve name = 0) :
    ph_install_hook env (some name) repl true alloc s
      = (PHResult.functionNotFound, s, none) := by
  simp only [ph_install_hook]
  rw [if_neg hrepl, if_neg (by simp), if_neg (by simp [hinit]),
    if_neg (by simp [hfind]), if_pos hres]

/-- C1, counterexample: a concrete successful install of `"f"` followed
by a successful `ph_remove_hook`.  The removal takes the handle by const
pointer and never clears `is_valid`, so afterwards the handle's valid
flag is still `true` even though no entry named `"f"` remains — refuting
both "the handle's valid flag is false" and "a handle is valid if and
only if an active entry with its function name exists". -/
theorem remove_hook_does_not_invalidate_handle_cex :
    ph_install_hook ⟨true, fun _ => 7⟩ (some "f") 5 true true ⟨true, [], 1⟩
        = (PHResult.success, ⟨true, [⟨"f", 7, 5, true⟩], 2⟩, some ⟨1, "f", true⟩) ∧
    ph_remove_hook ⟨1, "f", true⟩ ⟨true, [⟨"f", 7, 5, true⟩], 2⟩
        = (PHResult.success, ⟨true, [], 2⟩) ∧
    (⟨1, "f", true⟩ : PHookHandle).is_valid = true ∧
    ph_find_hook_by_name "f" (⟨true, [], 2⟩ : PHState).hooks = none ∧
    ph_is_hooked (some "f") ⟨true, [], 2⟩ = false := by
  decide

/-- C1 (amended): after `ph_remove_hook(handle)` returns Success the
matching entry is discarded, so — provided no entry with the handle's
name remains — a second `ph_remove_hook` with the same, structurally
unchanged handle fails with `PH_ERROR_NOT_HOOKED` rather than crashing.
The handle itself necessarily still has `is_valid = true`: removal never
mutates the caller's handle, so the "valid flag becomes false" /
"valid iff an active entry exists" part of the claim does not hold. -/
theorem remove_hook_second_remove_not_hooked (h : PHookHandle) (s s1 : PHState)
    (hr : ph_remove_hook h s = (PHResult.success, s1))
    (hf : ph_find_hook_by_name h.function_name s1.hooks = none) :
    h.is_valid = true ∧ ph_remove_hook h s1 = (PHResult.notHooked, s1) := by
  obtain ⟨hv, hi, hm, hi1, hn⟩ := ph_remove_hook_success_inv h s s1 hr
  refine ⟨hv, ?_⟩
  unfold ph_remove_hook
  rw [if_neg (by simp [hv]), if_neg (by simp [hi1]),
    (removeFirstHook_eq_none_iff h.function_name s1.hooks).mpr hf]

/-- Witness for `remove_hook_second_remove_not_hooked` at the concrete
post-removal state of the counterexample trace. -/
theorem remove_hook_second_remove_not_hooked_witness :
    (⟨1, "f", true⟩ : PHookHandle).is_valid = true ∧
    ph_remove_hook ⟨1, "f", true⟩ ⟨true, [], 2⟩ = (PHResult.notHooked, ⟨true, [], 2⟩) :=
  remove_hook_second_remove_not_hooked ⟨1, "f", true⟩ ⟨true, [⟨"f", 7, 5, true⟩], 2⟩
    ⟨true, [], 2⟩ (by decide) (by decide)

/-- C2: when an active entry for `name` already exists, a second
`ph_install_hook` for the same name fails with `PH_ERROR_ALREADY_HOOKED`
and returns with the registry state exactly unchanged, so the entry —
with its originally recorded original and replacement addresses — is
still the one found for that name: no silent overwrite. -/
theorem install_hook_already_hooked_no_overwrite (env : PHEnv) (name : String)
    (repl : Nat) (alloc : Bool) (s : PHState) (e : PHookEntry)
    (hrepl : repl ≠ 0) (hinit : s.initialized = true)
    (hfind : ph_find_hook_by_name name s.hooks = some e) (hact : e.is_active = true) :
    ph_install_hook env (some name) repl true alloc s = (PHResult.alreadyHooked, s, none) ∧
    ph_find_hook_by_name name
      (ph_install_hook env (some name) repl true alloc s).2.1.hooks = some e := by
  have h1 : ph_install_hook env (some name) repl true alloc s
      = (PHResult.alreadyHooked, s, none) := by
    simp only [ph_install_hook]
    rw [if_neg hrepl, if_neg (by simp), if_neg (by simp [hinit]), if_pos (by simp [hfind])]
  exact ⟨h1, by rw [h1]; exact hfind⟩

/-- Witness for `install_hook_already_hooked_no_overwrite`: a second
install of `"f"` with replacement 9 over an entry recording replacement 5
fails and the entry with replacement 5 is still the one recorded. -/
theorem install_hook_already_hooked_no_overwrite_witness :
    ph_install_hook ⟨true, fun _ => 7⟩ (some "f") 9 true true
        ⟨true, [⟨"f", 7, 5, true⟩], 2⟩
      = (PHResult.alreadyHooked, ⟨true, [⟨"f", 7, 5, true⟩], 2⟩, none) ∧
    ph_find_hook_by_name "f"
      (ph_install_hook ⟨true, fun _ => 7⟩ (some "f") 9 true true
        ⟨true, [⟨"f", 7, 5, true⟩], 2⟩).2.1.hooks = some ⟨"f", 7, 5, true⟩ :=
  install_hook_already_hooked_no_overwrite ⟨true, fun _ => 7⟩ "f" 9 true
    ⟨true, [⟨"f", 7, 5, true⟩], 2⟩ ⟨"f", 7, 5, true⟩
    (by decide) (by decide) (by decide) (by decide)

/-- C5: every failing `ph_install_hook` (invalid parameter, not
initialized, already hooked, symbol not found, or allocation failure)
returns with the registry state exactly as before the call, no handle
written and the active-hook count unchanged; and with valid fresh
arguments, failing symbol resolution yields precisely
`PH_ERROR_FUNCTION_NOT_FOUND`. -/
theorem install_hook_error_leaves_registry_unchanged :
    (∀ (env : PHEnv) (fn : Option String) (repl : Nat) (hg alloc : Bool) (s : PHState),
        (ph_install_hook env fn repl hg alloc s).1 ≠ PHResult.success →
        (ph_install_hook env fn repl hg alloc s).2.1 = s ∧
        (ph_install_hook env fn repl hg alloc s).2.2 = none ∧
        ph_get_active_hook_count (ph_install_hook env fn repl hg alloc s).2.1
          = ph_get_active_hook_count s) ∧
    (∀ (env : PHEnv) (name : String) (repl : Nat) (alloc : Bool) (s : PHState),
        repl ≠ 0 → s.initialized = true →
        ph_find_hook_by_name name s.hooks = none → env.resolve name = 0 →
        ph_install_hook env (some name) repl true alloc s
          = (PHResult.functionNotFound, s, none)) := by
  constructor
  · intro env fn repl hg alloc s h
    obtain ⟨h1, h2⟩ := ph_install_hook_ne_success env fn repl hg alloc s h
    exact ⟨h1, h2, by rw [h1]⟩
  · intro env name repl alloc s hrepl hinit hfind hres
    exact ph_install_hook_function_not_found env name repl alloc s hrepl hinit hfind hres

/-- Witness for `install_hook_error_leaves_registry_unchanged` at a
concrete unresolvable name. -/
theorem install_hook_error_leaves_registry_unchanged_witness :
    ((ph_install_hook ⟨true, fun _ => 0⟩ (some "g") 5 true true ⟨true, [], 3⟩).2.1
        = ⟨true, [], 3⟩ ∧
      (ph_install_hook ⟨true, fun _ => 0⟩ (some "g") 5 true true ⟨true, [], 3⟩).2.2
        = none ∧
      ph_get_active_hook_count
          (ph_install_hook ⟨true, fun _ => 0⟩ (some "g") 5 true true ⟨true, [], 3⟩).2.1
        = ph_get_active_hook_count ⟨true, [], 3⟩) ∧
    ph_install_hook ⟨true, fun _ => 0⟩ (some "g") 5 true true ⟨true, [], 3⟩
      = (PHResult.functionNotFound, ⟨true, [], 3⟩, none) :=
  ⟨install_hook_error_leaves_registry_unchanged.1 ⟨true, fun _ => 0⟩ (some "g") 5 true true
      ⟨true, [], 3⟩ (by decide),
   install_hook_error_leaves_registry_unchanged.2 ⟨true, fun _ => 0⟩ "g" 5 true
      ⟨true, [], 3⟩ (by decide) (by decide) (by decide) (by decide)⟩

/-- C7, counterexample: with the empty function name (a non-NULL pointer
to `""`), `ph_install_hook` does not fail with
`PH_ERROR_INVALID_PARAM` — the NULL checks pass, and the call proceeds to
symbol resolution, here failing with `PH_ERROR_FUNCTION_NOT_FOUND`. -/
theorem install_hook_empty_name_not_invalid_param_cex :
    (ph_install_hook ⟨true, fun _ => 0⟩ (some "") 5 true true ⟨true, [], 1⟩).1
        = PHResult.functionNotFound ∧
    (ph_install_hook ⟨true, fun _ => 0⟩ (some "") 5 true true ⟨true, [], 1⟩).1
        ≠ PHResult.invalidParam := by
  decide

/-- C7 (amended): `ph_install_hook` with a NULL name, NULL replacement or
NULL out-handle fails with `PH_ERROR_INVALID_PARAM`, detected before any
mutation (state returned unchanged, no handle written).  An empty (but
non-NULL) name is NOT rejected as `InvalidParameter`: it proceeds past
the null checks to lookup and symbol resolution, failing with
`PH_ERROR_FUNCTION_NOT_FOUND` when `dlsym` does not resolve `""`, again
with no mutation. -/
theorem install_hook_null_args_invalid_param :
    (∀ (env : PHEnv) (fn : Option String) (repl : Nat) (hg alloc : Bool) (s : PHState),
        fn = none ∨ repl = 0 ∨ hg = false →
        ph_install_hook env fn repl hg alloc s = (PHResult.invalidParam, s, none)) ∧
    (∀ (env : PHEnv) (repl : Nat) (alloc : Bool) (s : PHState),
        repl ≠ 0 → s.initialized = true →
        ph_find_hook_by_name "" s.hooks = none → env.resolve "" = 0 →
        ph_install_hook env (some "") repl true alloc s
          = (PHResult.functionNotFound, s, none)) := by
  constructor
  · intro env fn repl hg alloc s hdisj
    rcases hdisj with rfl | hrepl | hhg
    · rfl
    · cases fn with
      | none => rfl
      | some name =>
        simp only [ph_install_hook]
        rw [if_pos hrepl]
    · cases fn with
      | none => rfl
      | some name =>
        simp only [ph_install_hook]
        by_cases hrepl : repl = 0
        · rw [if_pos hrepl]
        · rw [if_neg hrepl, if_pos hhg]
  · intro env repl alloc s hrepl hinit hfind hres
    exact ph_install_hook_function_not_found env "" repl alloc s hrepl hinit hfind hres

/-- Witness for `install_hook_null_args_invalid_param`: the NULL-name
case and the empty-name case at concrete inputs. -/
theorem install_hook_null_args_invalid_param_witness :
    ph_install_hook ⟨true, fun _ => 7⟩ none 5 true true ⟨true, [], 1⟩
        = (PHResult.invalidParam, ⟨true, [], 1⟩, none) ∧
    ph_install_hook ⟨true, fun _ => 0⟩ (some "") 5 true true ⟨true, [], 1⟩
        = (PHResult.functionNotFound, ⟨true, [], 1⟩, none) :=
  ⟨install_hook_null_args_invalid_param.1 ⟨true, fun _ => 7⟩ none 5 true true
      ⟨true, [], 1⟩ (Or.inl rfl),
   install_hook_null_args_invalid_param.2 ⟨true, fun _ => 0⟩ 5 true ⟨true, [], 1⟩
      (by decide) (by decide) (by decide) (by decide)⟩

/-- C10: `ph_remove_hook` identifies the entry to remove solely by the
handle's function name — the id field is never consulted (replacing it by
any other id gives the identical result), and the model's const handle is
never modified.  Consequently, after a successful removal, if no other
entry with that name remains and the symbol still resolves, a fresh
install of the same name succeeds and a second `ph_remove_hook` with the
ORIGINAL handle also succeeds, unlinking the newly installed entry and
restoring the post-first-removal hook list. -/
theorem remove_hook_matches_by_name_only :
    (∀ (s : PHState) (h : PHookHandle) (id2 : Nat),
        ph_remove_hook ⟨id2, h.function_name, h.is_valid⟩ s = ph_remove_hook h s) ∧
    (∀ (env : PHEnv) (h : PHookHandle) (s s1 : PHState) (repl : Nat),
        h.function_name.length ≤ 255 →
        ph_remove_hook h s = (PHResult.success, s1) →
        ph_find_hook_by_name h.function_name s1.hooks = none →
        env.resolve h.function_name ≠ 0 → repl ≠ 0 →
        (ph_install_hook env (some h.function_name) repl true true s1).1
            = PHResult.success ∧
        ph_remove_hook h
            (ph_install_hook env (some h.function_name) repl true true s1).2.1
          = (PHResult.success,
             ⟨true, s1.hooks,
              (ph_install_hook env (some h.function_name) repl true true s1).2.1.nextId⟩)) := by
  constructor
  · intro s h id2
    rfl
  · intro env h s s1 repl hlen hr hf hres hrepl
    obtain ⟨hv, hi, hm, hi1, hn⟩ := ph_remove_hook_success_inv h s s1 hr
    have hinst : ph_install_hook env (some h.function_name) repl true true s1
        = (PHResult.success,
           ⟨true, ⟨trunc255 h.function_name, env.resolve h.function_name, repl, true⟩
              :: s1.hooks,
            (s1.nextId + 1) % 2 ^ 32⟩,
           some ⟨s1.nextId, trunc255 h.function_name, true⟩) := by
      simp only [ph_install_hook]
      rw [if_neg hrepl, if_neg (by simp), if_neg (by simp [hi1]), if_neg (by simp [hf]),
        if_neg hres, if_neg (by simp)]
    rw [hinst]
    refine ⟨rfl, ?_⟩
    have hname : (⟨trunc255 h.function_name, env.resolve h.function_name, repl, true⟩
        : PHookEntry).function_name = h.function_name := trunc255_eq_self _ hlen
    have hrm : removeFirstHook h.function_name
        (⟨trunc255 h.function_name, env.resolve h.function_name, repl, true⟩ :: s1.hooks)
        = some s1.hooks := by
      simp only [removeFirstHook]
      rw [if_pos hname]
    unfold ph_remove_hook
    rw [if_neg (by simp [hv]), if_neg (by simp), hrm]

/-- Witness for `remove_hook_matches_by_name_only`: id-irrelevance and
the remove/reinstall/remove scenario at a concrete trace. -/
theorem remove_hook_matches_by_name_only_witness :
    ph_remove_hook ⟨1, "f", true⟩ ⟨true, [], 2⟩
        = ph_remove_hook ⟨42, "f", true⟩ ⟨true, [], 2⟩ ∧
    (ph_install_hook ⟨true, fun _ => 7⟩ (some "f") 9 true true ⟨true, [], 2⟩).1
        = PHResult.success ∧
    ph_remove_hook ⟨1, "f", true⟩
        (ph_install_hook ⟨true, fun _ => 7⟩ (some "f") 9 true true ⟨true, [], 2⟩).2.1
      = (PHResult.success,
         ⟨true, [],
          (ph_install_hook ⟨true, fun _ => 7⟩ (some "f") 9 true true
            ⟨true, [], 2⟩).2.1.nextId⟩) := by
  refine ⟨remove_hook_matches_by_name_only.1 ⟨true, [], 2⟩ ⟨42, "f", true⟩ 1, ?_⟩
  exact remove_hook_matches_by_name_only.2 ⟨true, fun _ => 7⟩ ⟨1, "f", true⟩
    ⟨true, [⟨"f", 7, 5, true⟩], 2⟩ ⟨true, [], 2⟩ 9
    (by decide) (by decide) (by decide) (by decide) (by decide)

/-- C3, counterexample: two concrete traces refuting the claim as
stated.  First, after a successful install of `"f"`, `ph_cleanup` makes
`ph_is_hooked("f")` false although no `ph_remove_hook` ever returned
Success.  Second, a 256-character name installs successfully but
`ph_is_hooked` on that very name is immediately false, because the entry
stores only the first 255 characters while the lookup compares the full
name. -/
theorem is_hooked_until_remove_cex :
    (ph_install_hook ⟨true, fun _ => 7⟩ (some "f") 5 true true ⟨true, [], 1⟩).1
        = PHResult.success ∧
    ph_is_hooked (some "f")
        (ph_install_hook ⟨true, fun _ => 7⟩ (some "f") 5 true true ⟨true, [], 1⟩).2.1
      = true ∧
    ph_is_hooked (some "f")
        (ph_cleanup (ph_install_hook ⟨true, fun _ => 7⟩ (some "f") 5 true true
          ⟨true, [], 1⟩).2.1)
      = false ∧
    (ph_install_hook ⟨true, fun _ => 7⟩ (some ⟨List.replicate 256 'a'⟩) 5 true true
        ⟨true, [], 1⟩).1 = PHResult.success ∧
    ph_is_hooked (some ⟨List.replicate 256 'a'⟩)
        (ph_install_hook ⟨true, fun _ => 7⟩ (some ⟨List.replicate 256 'a'⟩) 5 true true
          ⟨true, [], 1⟩).2.1
      = false := by
  decide

/-- C3 (amended): for a name of at most 255 characters, a successful
`ph_install_hook` makes `ph_is_hooked(name)` true; and installs of any
name, removals via a handle with a different name, removals that do not
return Success, and `ph_initialize` on an initialized system all preserve
`ph_is_hooked(name) = true`.  So the flag stays true until a
`ph_remove_hook` whose handle carries that name returns Success — or
until `ph_cleanup` (excluded by the counterexample) tears everything
down. -/
theorem is_hooked_install_remove_lifecycle :
    (∀ (env : PHEnv) (name : String) (repl : Nat) (hg alloc : Bool)
        (s s1 : PHState) (oh : Option PHookHandle),
        name.length ≤ 255 →
        ph_install_hook env (some name) repl hg alloc s = (PHResult.success, s1, oh) →
        ph_is_hooked (some name) s1 = true) ∧
    (∀ (env : PHEnv) (fn : Option String) (repl : Nat) (hg alloc : Bool)
        (s : PHState) (name : String),
        ph_is_hooked (some name) s = true →
        ph_is_hooked (some name) (ph_install_hook env fn repl hg alloc s).2.1 = true) ∧
    (∀ (h : PHookHandle) (s : PHState) (name : String),
        ph_is_hooked (some name) s = true → h.function_name ≠ name →
        ph_is_hooked (some name) (ph_remove_hook h s).2 = true) ∧
    (∀ (h : PHookHandle) (s : PHState) (name : String),
        ph_is_hooked (some name) s = true →
        (ph_remove_hook h s).1 ≠ PHResult.success →
        ph_is_hooked (some name) (ph_remove_hook h s).2 = true) ∧
    (∀ (env : PHEnv) (s : PHState), s.initialized = true →
        ph_initialize env s = (PHResult.success, s)) := by
  refine ⟨?_, ?_, ?_, ?_, ?_⟩
  · intro env name repl hg alloc s s1 oh hlen hinst
    obtain ⟨-, -, -, hs1, -⟩ :=
      ph_install_hook_success_inv env name repl hg alloc s s1 oh hinst
    subst hs1
    simp [ph_is_hooked, ph_find_hook_by_name, trunc255_eq_self name hlen]
  · intro env fn repl hg alloc s name hhook
    cases fn with
    | none => exact hhook
    | some name2 =>
      rcases ph_install_hook_cases env name2 repl hg alloc s with ⟨r, -, he⟩ |
        ⟨-, -, -, -, -, -, he⟩
      · rw [he]
        exact hhook
      · rw [he]
        exact ph_find_hook_by_name_isSome_cons name _ s.hooks hhook
  · intro h s name hhook hne
    rcases ph_remove_hook_cases h s with ⟨-, he⟩ | ⟨-, -, -, he⟩ | ⟨l1, -, -, hm, he⟩
    · rw [he]
      exact hhook
    · rw [he]
      exact hhook
    · rw [he]
      exact ph_find_hook_by_name_isSome_of_removeFirst h.function_name name hne
        s.hooks l1 hm hhook
  · intro h s name hhook hfail
    rw [ph_remove_hook_ne_success h s hfail]
    exact hhook
  · intro env s hinit
    simp [ ph_initialize, hinit]

/-- Witness for `is_hooked_install_remove_lifecycle`: install of `"f"`
makes it hooked, removing an unrelated name keeps it hooked, and
`ph_initialize` on an initialized state is a no-op. -/
theorem is_hooked_install_remove_lifecycle_witness :
    ph_is_hooked (some "f") ⟨true, [⟨"f", 7, 5, true⟩], 2⟩ = true ∧
    ph_is_hooked (some "f")
        (ph_remove_hook ⟨9, "g", true⟩ ⟨true, [⟨"f", 7, 5, true⟩], 2⟩).2 = true ∧
    ph_initialize ⟨true, fun _ => 7⟩ ⟨true, [], 3⟩ = (PHResult.success, ⟨true, [], 3⟩) := by
  refine ⟨?_, ?_, ?_⟩
  · exact is_hooked_install_remove_lifecycle.1 ⟨true, fun _ => 7⟩ "f" 5 true true
      ⟨true, [], 1⟩ ⟨true, [⟨"f", 7, 5, true⟩], 2⟩ (some ⟨1, "f", true⟩)
      (by decide) (by decide)
  · exact is_hooked_install_remove_lifecycle.2.2.1 ⟨9, "g", true⟩
      ⟨true, [⟨"f", 7, 5, true⟩], 2⟩ "f" (by decide) (by decide)
  · exact is_hooked_install_remove_lifecycle.2.2.2.2 ⟨true, fun _ => 7⟩ ⟨true, [], 3⟩ rfl

/-- C6, counterexample: a concrete trace in which install yields the
handle id 1, then `ph_cleanup` (which keeps the counter) followed by
`ph_initialize` (which RESETS the counter to 1) makes the next install
yield id 1 again — the same handle value as in the first epoch — so ids
are reused across cleanup/initialize within one process lifetime. -/
theorem hook_id_reused_after_reinitialize_cex :
    (ph_install_hook ⟨true, fun _ => 7⟩ (some "f") 5 true true ⟨true, [], 1⟩).2.2
        = some ⟨1, "f", true⟩ ∧
    ph_cleanup (ph_install_hook ⟨true, fun _ => 7⟩ (some "f") 5 true true
        ⟨true, [], 1⟩).2.1 = ⟨false, [], 2⟩ ∧
    ph_initialize ⟨true, fun _ => 7⟩ ⟨false, [], 2⟩ = (PHResult.success, ⟨true, [], 1⟩) ∧
    (ph_install_hook ⟨true, fun _ => 7⟩ (some "f") 5 true true
        ( ph_initialize ⟨true, fun _ => 7⟩ (ph_cleanup
          (ph_install_hook ⟨true, fun _ => 7⟩ (some "f") 5 true true
            ⟨true, [], 1⟩).2.1)).2).2.2
      = some ⟨1, "f", true⟩ := by
  decide

/-- C6 (amended): each successful `ph_install_hook` hands out the current
counter value as the handle id and bumps the counter by one in 32-bit
arithmetic, so below the 2^32 wrap ids strictly increase; removals and
`ph_cleanup` never change the counter, and `ph_initialize` on an
initialized system is a no-op.  But `ph_initialize` on an uninitialized
(e.g. just-cleaned-up) system RESETS the counter to 1, so ids ARE reused
across a cleanup/initialize pair — the "never reused within a process
lifetime, including across ph_cleanup followed by ph_initialize" part of
the claim fails. -/
theorem hook_id_counter_spec :
    (∀ (env : PHEnv) (name : String) (repl : Nat) (hg alloc : Bool)
        (s s1 : PHState) (hnd : PHookHandle),
        ph_install_hook env (some name) repl hg alloc s
            = (PHResult.success, s1, some hnd) →
        hnd.id = s.nextId ∧ s1.nextId = (s.nextId + 1) % 2 ^ 32 ∧
          (s.nextId + 1 < 2 ^ 32 → hnd.id < s1.nextId)) ∧
    (∀ (h : PHookHandle) (s : PHState), ((ph_remove_hook h s).2).nextId = s.nextId) ∧
    (∀ s : PHState, (ph_cleanup s).nextId = s.nextId) ∧
    (∀ (env : PHEnv) (s : PHState), s.initialized = true →
        ph_initialize env s = (PHResult.success, s)) ∧
    (∀ (env : PHEnv) (s : PHState), s.initialized = false → env.platformSupported = true →
        ph_initialize env s = (PHResult.success, ⟨true, [], 1⟩)) := by
  refine ⟨?_, ph_remove_hook_nextId, ?_, ?_, ?_⟩
  · intro env name repl hg alloc s s1 hnd hinst
    obtain ⟨-, -, -, hs1, hoh⟩ :=
      ph_install_hook_success_inv env name repl hg alloc s s1 (some hnd) hinst
    have hid : hnd.id = s.nextId := by
      injection hoh with hoh'
      rw [hoh']
    subst hs1
    refine ⟨hid, rfl, fun hlt => ?_⟩
    show hnd.id < (s.nextId + 1) % 2 ^ 32
    rw [hid, Nat.mod_eq_of_lt hlt]
    omega
  · intro s
    unfold ph_cleanup
    split_ifs <;> rfl
  · intro env s hinit
    simp [ ph_initialize, hinit]
  · intro env s hinit hplat
    simp [ ph_initialize, hinit, hplat]

/-- Witness for `hook_id_counter_spec`: the id handed out for the first
install is the counter value 1, the post-install counter is 2, the id is
strictly below it, and reinitialization after cleanup resets the counter
to 1. -/
theorem hook_id_counter_spec_witness :
    (⟨1, "f", true⟩ : PHookHandle).id = 1 ∧
    (⟨true, [⟨"f", 7, 5, true⟩], 2⟩ : PHState).nextId = (1 + 1) % 2 ^ 32 ∧
    (⟨1, "f", true⟩ : PHookHandle).id < (⟨true, [⟨"f", 7, 5, true⟩], 2⟩ : PHState).nextId ∧
    ph_initialize ⟨true, fun _ => 7⟩ ⟨false, [], 2⟩ = (PHResult.success, ⟨true, [], 1⟩) := by
  have h := hook_id_counter_spec.1 ⟨true, fun _ => 7⟩ "f" 5 true true ⟨true, [], 1⟩
    ⟨true, [⟨"f", 7, 5, true⟩], 2⟩ ⟨1, "f", true⟩ (by decide)
  exact ⟨h.1, h.2.1, h.2.2 (by decide),
    hook_id_counter_spec.2.2.2.2 ⟨true, fun _ => 7⟩ ⟨false, [], 2⟩ (by decide) (by decide)⟩

/-- C4: the hostname handler succeeds (returns 0) exactly when the
caller's capacity strictly exceeds the configured hostname's length; on
failure it returns -1 and writes nothing at all; on success the buffer
holds the hostname's characters at positions 0..len-1 of the hostname
with a NUL terminator right after them, all inside the first `len`
positions; and on every path no position at index `len` or beyond is
ever written. -/
theorem hooked_gethostname_spec (host : String) (buf : List Char) (len : Nat) :
    ((hooked_gethostname host buf len).1 = 0 ↔ host.length < len) ∧
    (len ≤ host.length → hooked_gethostname host buf len = (-1, buf)) ∧
    (host.length < len → len ≤ buf.length →
      ((∀ i, i < host.length →
          (hooked_gethostname host buf len).2.get? i = host.data.get? i) ∧
        (hooked_gethostname host buf len).2.get? host.length = some (Char.ofNat 0))) ∧
    (∀ i, len ≤ i → (hooked_gethostname host buf len).2.get? i = buf.get? i) := by
  by_cases hle : len ≤ host.length
  · have heq : hooked_gethostname host buf len = (-1, buf) := by
      simp [hooked_gethostname, hle]
    refine ⟨?_, fun _ => heq, fun hlt _ => absurd hlt (by omega), fun i _ => by rw [heq]⟩
    rw [heq]
    constructor
    · intro h0
      norm_num at h0
    · intro hlt
      omega
  · have hlt : host.length < len := by omega
    have hdl : host.data.length = host.length := String.length_data host
    have htake : host.data.take (len - 1) = host.data :=
      List.take_of_length_le (by omega)
    have hchunk : strncpyChunk host (len - 1)
        = host.data ++ List.replicate (len - 1 - host.length) (Char.ofNat 0) := by
      rw [strncpyChunk, htake, hdl]
    have hchlen : (strncpyChunk host (len - 1)).length = len - 1 := by
      rw [hchunk]
      simp
      omega
    have heq : hooked_gethostname host buf len
        = (0, (writeChunk buf 0 (strncpyChunk host (len - 1))).set (len - 1)
              (Char.ofNat 0)) := by
      simp [hooked_gethostname, hle]
    have hwlen : (writeChunk buf 0 (strncpyChunk host (len - 1))).length = buf.length :=
      writeChunk_length _ buf 0
    refine ⟨by rw [heq]; exact ⟨fun _ => hlt, fun _ => rfl⟩,
      fun hc => absurd hc (by omega), fun _ hbuf => ⟨?_, ?_⟩, ?_⟩
    · intro i hi
      rw [heq]
      have h1 : ((writeChunk buf 0 (strncpyChunk host (len - 1))).set (len - 1)
            (Char.ofNat 0)).get? i
          = (writeChunk buf 0 (strncpyChunk host (len - 1))).get? i :=
        List.get?_set_ne _ _ (by omega)
      rw [h1]
      have h2 := writeChunk_get?_inside (strncpyChunk host (len - 1)) buf 0 i
        (by omega) (by omega)
      rw [Nat.zero_add] at h2
      rw [h2, hchunk]
      exact List.get?_append (by omega)
    · rw [heq]
      by_cases hedge : host.length = len - 1
      · rw [hedge]
        exact List.get?_set_eq_of_lt _ (by omega)
      · have h1 : ((writeChunk buf 0 (strncpyChunk host (len - 1))).set (len - 1)
              (Char.ofNat 0)).get? host.length
            = (writeChunk buf 0 (strncpyChunk host (len - 1))).get? host.length :=
          List.get?_set_ne _ _ (by omega)
        rw [h1]
        have h2 := writeChunk_get?_inside (strncpyChunk host (len - 1)) buf 0 host.length
          (by omega) (by omega)
        rw [Nat.zero_add] at h2
        rw [h2, hchunk]
        rw [List.get?_append_right (by omega)]
        obtain ⟨j, hj⟩ : ∃ j, len - 1 - host.length = j + 1 :=
          ⟨len - 2 - host.length, by omega⟩
        rw [hj, hdl, Nat.sub_self]
        rfl
    · intro i hi
      rw [heq]
      have h1 : ((writeChunk buf 0 (strncpyChunk host (len - 1))).set (len - 1)
            (Char.ofNat 0)).get? i
          = (writeChunk buf 0 (strncpyChunk host (len - 1))).get? i :=
        List.get?_set_ne _ _ (by omega)
      rw [h1]
      exact writeChunk_get?_of_ge _ buf 0 i (by omega)

/-- Witness for `hooked_gethostname_spec` at the spec's own example:
hostname "abc" with capacity 4 succeeds and yields `abc` plus NUL at
position 3; capacity 3 fails leaving the buffer untouched. -/
theorem hooked_gethostname_spec_witness :
    (hooked_gethostname "abc" ['x', 'x', 'x', 'x'] 4).1 = 0 ∧
    (hooked_gethostname "abc" ['x', 'x', 'x', 'x'] 4).2.get? 0 = some 'a' ∧
    (hooked_gethostname "abc" ['x', 'x', 'x', 'x'] 4).2.get? "abc".length
      = some (Char.ofNat 0) ∧
    hooked_gethostname "abc" ['x', 'x', 'x'] 3 = (-1, ['x', 'x', 'x']) := by
  have h4 := hooked_gethostname_spec "abc" ['x', 'x', 'x', 'x'] 4
  have h3 := hooked_gethostname_spec "abc" ['x', 'x', 'x'] 3
  refine ⟨h4.1.mpr (by decide), ?_, (h4.2.2.1 (by decide) (by decide)).2,
    h3.2.1 (by decide)⟩
  rw [(h4.2.2.1 (by decide) (by decide)).1 0 (by decide)]
  decide

/-- C8, counterexample: one active entry named "ab" and a buffer of
capacity 3.  The name plus its terminator occupy exactly 3 bytes, which
fits the remaining capacity (2 + 1 ≤ 3 - 0), yet the loop's strict test
`offset + name_len + 1 < buffer_size` rejects it: nothing is written and
the call returns 0 — refuting "writes a next name whenever its length
plus one terminator fits in the remaining capacity". -/
theorem get_active_hooks_exact_fit_dropped_cex :
    ph_get_active_hooks ['x', 'x', 'x'] 3 ⟨true, [⟨"ab", 3, 4, true⟩], 2⟩
        = (0, ['x', 'x', 'x']) ∧
    "ab".length + 1 ≤ 3 - 0 := by
  decide

/-- C8 (amended): `ph_get_active_hooks` writes exactly the greedy prefix
of active names computed by `writableNames` — each name copied
consecutively with its NUL terminator, a name being accepted only while
`offset + name_len + 1 < buffer_size` holds, i.e. STRICTLY less than the
remaining capacity (a name that would exactly fill the rest is dropped,
and the loop then stops without signaling an error) — returns exactly the
number of names written, and never writes at or beyond the given
capacity. -/
theorem get_active_hooks_spec (buf : List Char) (bufferSize : Nat) (s : PHState) :
    ph_get_active_hooks buf bufferSize s
        = ((writableNames s.hooks bufferSize 0).length,
           writeChunk buf 0 (serializeNames (writableNames s.hooks bufferSize 0))) ∧
    (∀ i, bufferSize ≤ i →
        (ph_get_active_hooks buf bufferSize s).2.get? i = buf.get? i) := by
  have hzero : writableNames s.hooks 0 0 = [] := by
    cases s.hooks with
    | nil => rfl
    | cons e rest => simp [writableNames]
  by_cases hbs : bufferSize = 0
  · subst hbs
    refine ⟨?_, fun i _ => ?_⟩
    · rw [hzero]
      simp [ph_get_active_hooks, serializeNames, writeChunk]
    · simp [ph_get_active_hooks]
  · have heq : ph_get_active_hooks buf bufferSize s
        = ((writableNames s.hooks bufferSize 0).length,
           writeChunk buf 0 (serializeNames (writableNames s.hooks bufferSize 0))) := by
      simp only [ph_get_active_hooks, if_neg hbs]
      rw [ph_get_active_hooks_loop_spec s.hooks buf bufferSize 0 0, Nat.zero_add]
    refine ⟨heq, fun i hi => ?_⟩
    rw [heq]
    rcases serializeNames_writableNames_lt s.hooks bufferSize 0 with hnil | hblt
    · rw [hnil]
      rfl
    · exact writeChunk_get?_of_ge _ buf 0 i (by omega)

/-- Witness for `get_active_hooks_spec` at a concrete registry: with
capacity 8 the single name "ab" is written as `ab` NUL and the count is
1; the byte at index 7 (beyond nothing here, but at full capacity
boundary) keeps its old value. -/
theorem get_active_hooks_spec_witness :
    ph_get_active_hooks ['x', 'x', 'x', 'x', 'x', 'x', 'x', 'x'] 8
        ⟨true, [⟨"ab", 3, 4, true⟩], 2⟩
      = ((writableNames [⟨"ab", 3, 4, true⟩] 8 0).length,
         writeChunk ['x', 'x', 'x', 'x', 'x', 'x', 'x', 'x'] 0
           (serializeNames (writableNames [⟨"ab", 3, 4, true⟩] 8 0))) ∧
    (ph_get_active_hooks ['x', 'x', 'x', 'x', 'x', 'x', 'x', 'x'] 8
        ⟨true, [⟨"ab", 3, 4, true⟩], 2⟩).2.get? 8
      = (['x', 'x', 'x', 'x', 'x', 'x', 'x', 'x'] : List Char).get? 8 :=
  ⟨(get_active_hooks_spec ['x', 'x', 'x', 'x', 'x', 'x', 'x', 'x'] 8
      ⟨true, [⟨"ab", 3, 4, true⟩], 2⟩).1,
   (get_active_hooks_spec ['x', 'x', 'x', 'x', 'x', 'x', 'x', 'x'] 8
      ⟨true, [⟨"ab", 3, 4, true⟩], 2⟩).2 8 (by decide)⟩

/-- C9, counterexample: the event sequences of
`ph_install_gethostname_hook` and `ph_install_uname_hook` store into
`g_config_data` BEFORE acquiring `g_hook_mutex` — their configuration
writes happen with the lock not held, refuting "every mutation of the
Spoof Configuration Store ... happens while holding the same exclusive
lock". -/
theorem config_write_unlocked_cex :
    configWritesLocked ph_install_gethostname_hook_events = false ∧
    configWritesLocked ph_install_uname_hook_events = false := by
  decide

/-- C9 (amended): only the getuid and getgid configuration-install
operations mutate the Spoof Configuration Store while holding the
registry lock; the gethostname and uname configuration-install operations
write their configuration fields without holding it, so a concurrent
reader can observe a half-updated configuration struct. -/
theorem config_writes_lock_status :
    configWritesLocked ph_install_getuid_hook_events = true ∧
    configWritesLocked ph_install_getgid_hook_events = true ∧
    configWritesLocked ph_install_gethostname_hook_events = false ∧
    configWritesLocked ph_install_uname_hook_events = false := by
  decide

end Privarion
